import Mathlib

/-!
Shallow embedding of the APK renamer core (`apk_renamer.py`): the metadata
extractor `get_apk_info` and the rename operation `rename_apk`, together with
the POSIX path helpers (`os.path.split`, `os.path.join`, `os.path.normpath`)
they call.  Paths and strings are embedded as `List Char`; the external tool
invocation is an oracle input (`ToolBeh`); the filesystem is an association
list from paths to file contents; Python exceptions travel in an `Except`
channel so that the `try`/`except` structure of the source is explicit.
-/

/-- Strings of the embedded program, as lists of characters. -/
abbrev Str := List Char

/-- The single-quote character, written via its code point. -/
def squote : Char := Char.ofNat 39

/-- The backslash character, written via its code point. -/
def bslash : Char := Char.ofNat 92

/-- Python exceptions that the modelled calls can raise. -/
inductive PyExc
  | fileNotFound
  | calledProcessError (returncode : Int) (stderrText : Str)
  | osError (msg : Str)
  | other (msg : Str)
deriving DecidableEq

/-- Python `isinstance(e, OSError)`: `FileNotFoundError` is an `OSError` subclass. -/
def PyExc.isOSError : PyExc → Bool
  | .fileNotFound => true
  | .osError _ => true
  | _ => false

/-- Rendering of `str(e)` for an exception, used when formatting messages. -/
def excStr : PyExc → Str
  | .fileNotFound => String.toList "No such file or directory"
  | .calledProcessError _ st => String.toList "Command returned non-zero exit status: " ++ st
  | .osError m => m
  | .other m => m

/-- Behaviour of the external `aapt` subprocess on one invocation: it either
returns captured standard output or raises an exception
(`FileNotFoundError`, `CalledProcessError` for a non-zero exit, or any other
error such as a decoding failure). -/
inductive ToolBeh
  | ret (stdout : Str)
  | raise (e : PyExc)
deriving DecidableEq

/-- Filesystem model: an association list from path strings to file contents. -/
abbrev FS := List (Str × Str)

/-- Look up the content stored at a path (first binding wins). -/
def FS.lookup : FS → Str → Option Str
  | [], _ => none
  | (k, v) :: rest, key => if k = key then some v else FS.lookup rest key

/-- Remove every binding for a path. -/
def FS.erase (fs : FS) (key : Str) : FS :=
  fs.filter (fun e => e.1 ≠ key)

/-- Python `str.replace(old, new)` restricted to single characters, which is
how `get_apk_info` uses it. -/
def pyReplaceChar (old new : Char) (s : Str) : Str :=
  s.map (fun c => if c = old then new else c)

/-- The sanitisation applied to the application label in `get_apk_info`
(line 54): `.replace(" ", "_").replace("/", "_").replace("\\", "_")`. -/
def sanitizeLabel (s : Str) : Str :=
  pyReplaceChar bslash '_' (pyReplaceChar '/' '_' (pyReplaceChar ' ' '_' s))

/-- Attempt of the regex `lit([^']+)'` at the current position: the literal
must be present, followed by at least one non-quote character and a closing
quote; returns the captured group. -/
def reMatchAt (lit s : Str) : Option Str :=
  if lit.isPrefixOf s then
    let r := s.drop lit.length
    let g := r.takeWhile (fun c => c != squote)
    let r2 := r.dropWhile (fun c => c != squote)
    if g ≠ [] ∧ r2 ≠ [] then some g else none
  else none

/-- Python `re.search` for the pattern `lit([^']+)'`: leftmost position at
which the whole pattern matches, returning the captured group. -/
def reSearch (lit : Str) : Str → Option Str
  | [] => reMatchAt lit []
  | c :: rest =>
    match reMatchAt lit (c :: rest) with
    | some g => some g
    | none => reSearch lit rest

/-- The literal part of the pattern `application-label:'([^']+)'`. -/
def labelLit : Str := String.toList "application-label:" ++ [squote]

/-- The literal part of the pattern `versionName='([^']+)'`. -/
def versionLit : Str := String.toList "versionName=" ++ [squote]

/-- The app name computed by `get_apk_info` from tool output: the sanitised
first regex match, or `"UnknownApp"` when the pattern is absent. -/
def appOf (output : Str) : Str :=
  match reSearch labelLit output with
  | some g => sanitizeLabel g
  | none => String.toList "UnknownApp"

/-- The version name computed by `get_apk_info` from tool output: the first
regex match verbatim, or `"UnknownVersion"` when the pattern is absent. -/
def verOf (output : Str) : Str :=
  match reSearch versionLit output with
  | some g => g
  | none => String.toList "UnknownVersion"

/-- The tail of `posixpath.split`: everything after the last slash. -/
def splitTail (p : Str) : Str :=
  (p.reverse.takeWhile (fun c => c != '/')).reverse

/-- The raw head of `posixpath.split`: everything up to and including the
last slash. -/
def splitHeadRaw (p : Str) : Str :=
  (p.reverse.dropWhile (fun c => c != '/')).reverse

/-- The head of `posixpath.split`: the raw head with trailing slashes
stripped, unless it consists only of slashes. -/
def splitHead (p : Str) : Str :=
  if splitHeadRaw p ≠ [] ∧ ¬ (∀ c ∈ splitHeadRaw p, c = '/') then
    ((splitHeadRaw p).reverse.dropWhile (fun c => c = '/')).reverse
  else splitHeadRaw p

/-- Python `posixpath.split`: tail is everything after the last slash, head is
everything before it, with trailing slashes stripped from the head unless the
head consists only of slashes. -/
def splitPath (p : Str) : Str × Str :=
  (splitHead p, splitTail p)

/-- Python `posixpath.join` with two arguments. -/
def joinPath (a b : Str) : Str :=
  if b.head? = some '/' then b
  else if a = [] ∨ a.reverse.head? = some '/' then a ++ b
  else a ++ '/' :: b

/-- Python `str.split('/')`. -/
def splitOnSlash : Str → List Str
  | [] => [[]]
  | c :: rest =>
    if c = '/' then [] :: splitOnSlash rest
    else
      match splitOnSlash rest with
      | [] => [[c]]
      | g :: gs => (c :: g) :: gs

/-- Python `'/'.join`. -/
def joinWithSlash : List Str → Str
  | [] => []
  | [g] => g
  | g :: gs => g ++ '/' :: joinWithSlash gs

/-- One iteration of the component loop inside `posixpath.normpath`;
`isl` is the number of preserved initial slashes. -/
def normStep (isl : Nat) (acc : List Str) (comp : Str) : List Str :=
  if comp = [] ∨ comp = ['.'] then acc
  else if comp ≠ ['.', '.'] ∨ (isl = 0 ∧ acc = []) ∨
      (acc ≠ [] ∧ acc.getLast? = some ['.', '.']) then
    acc ++ [comp]
  else if acc ≠ [] then acc.dropLast else acc

/-- Python `posixpath.normpath`. -/
def normpath (p : Str) : Str :=
  if p = [] then ['.']
  else
    let isl : Nat :=
      match p with
      | '/' :: '/' :: '/' :: _ => 1
      | '/' :: '/' :: _ => 2
      | '/' :: _ => 1
      | _ => 0
    let nc := (splitOnSlash p).foldl (normStep isl) []
    let res := List.replicate isl '/' ++ joinWithSlash nc
    if res = [] then ['.'] else res

/-- Message shown when `aapt` is missing (`except FileNotFoundError`). -/
def aaptNotFoundMsg : Str :=
  String.toList "aapt not found.\nPlease ensure Android SDK Build-Tools are installed and aapt is in your PATH."

/-- Message shown when `aapt` exits non-zero (`except CalledProcessError`):
it embeds `os.path.basename(apk_path)` and the captured standard error. -/
def errAaptMsg (basename stderrText : Str) : Str :=
  String.toList "Error running aapt on " ++ [squote] ++ basename ++ [squote] ++
    String.toList ":\n" ++ stderrText

/-- Message shown by the catch-all clause of `get_apk_info`. -/
def unexpectedParseMsg (m : Str) : Str :=
  String.toList "An unexpected error occurred while parsing APK: " ++ m

/-- Message shown when `os.rename` raises an `OSError`. -/
def failedRenameMsg (m : Str) : Str :=
  String.toList "Failed to rename file:\n" ++ m

/-- Message shown by the catch-all clause of `rename_apk`. -/
def unexpectedRenameMsg (m : Str) : Str :=
  String.toList "An unexpected error occurred during renaming: " ++ m

/-- `get_apk_info(apk_path)`: run the tool, parse label and version with
placeholder fallbacks; each `except` clause turns an exception into the
error message it displays (the function then returns `(None, None)`,
i.e. `Except.error`). -/
def get_apk_info (apk_path : Str) (tool : ToolBeh) : Except Str (Str × Str) :=
  match tool with
  | .ret output => .ok (appOf output, verOf output)
  | .raise .fileNotFound => .error aaptNotFoundMsg
  | .raise (.calledProcessError _ st) => .error (errAaptMsg (splitPath apk_path).2 st)
  | .raise e => .error (unexpectedParseMsg (excStr e))

/-- The outcome reported by `rename_apk` through its message boxes. -/
inductive RenameOutcome
  | failed (reason : Str)
  | alreadyCorrect (filename : Str)
  | renamed (oldName newName : Str)
deriving DecidableEq

/-- The local `new_filename = f"{app_name}_{version_name}.apk"` of
`rename_apk` (line 100). -/
def new_filename (app_name version_name : Str) : Str :=
  app_name ++ '_' :: version_name ++ String.toList ".apk"

/-- The local `new_filepath = os.path.join(directory, new_filename)` of
`rename_apk` (line 102). -/
def new_filepath (apk_path app_name version_name : Str) : Str :=
  joinPath (splitPath apk_path).1 (new_filename app_name version_name)

/-- `os.rename(src, dst)` on the filesystem model: raises `OSError` when the
source does not exist, otherwise atomically moves the content to `dst`
(replacing any existing binding, POSIX semantics). -/
def osRename (fs : FS) (src dst : Str) : Except PyExc FS :=
  match FS.lookup fs src with
  | none => .error (.osError (String.toList "No such file or directory: " ++ src))
  | some c => .ok ((dst, c) :: FS.erase fs src)

/-- Body of the `try` block of `rename_apk` (lines 104-112): the idempotence
guard followed by the rename itself; exceptions propagate in the channel. -/
def renameTryBody (apk_path app_name version_name : Str) (fs : FS) :
    Except PyExc (RenameOutcome × FS) :=
  if normpath apk_path = normpath (new_filepath apk_path app_name version_name) then
    .ok (.alreadyCorrect (splitPath apk_path).2, fs)
  else
    match osRename fs apk_path (new_filepath apk_path app_name version_name) with
    | .error e => .error e
    | .ok fs2 => .ok (.renamed (splitPath apk_path).2 (new_filename app_name version_name), fs2)

/-- The stage of `rename_apk` after successful extraction: the `try` body with
its `except OSError` and `except Exception` handlers.  An `Except.error`
result would be an exception escaping the handlers. -/
def rename_stage (apk_path app_name version_name : Str) (fs : FS) :
    Except PyExc (RenameOutcome × FS) :=
  match renameTryBody apk_path app_name version_name fs with
  | .ok r => .ok r
  | .error e =>
    if e.isOSError then .ok (.failed (failedRenameMsg (excStr e)), fs)
    else .ok (.failed (unexpectedRenameMsg (excStr e)), fs)

/-- `rename_apk(apk_path)` (lines 80-118): extract metadata, return its error
outcome on failure, otherwise compute the new name and run the guarded
rename.  The result is the reported outcome paired with the resulting
filesystem; an `Except.error` would be an uncaught exception. -/
def rename_apk (apk_path : Str) (tool : ToolBeh) (fs : FS) :
    Except PyExc (RenameOutcome × FS) :=
  match get_apk_info apk_path tool with
  | .error r => .ok (.failed r, fs)
  | .ok (app_name, version_name) => rename_stage apk_path app_name version_name fs

/-- Python `str.lower` (character-wise). -/
def strLower (s : Str) : Str := s.map Char.toLower

/-- `apk_file_path.lower().endswith(".apk")` from the `__main__` block. -/
def endsWithApk (s : Str) : Bool :=
  (String.toList ".apk").isSuffixOf (strLower s)

/-- The `__main__` command-line branch (lines 219-228): given one argument,
check existence and extension; on success run `rename_apk` and exit 0
(whatever its outcome), otherwise report an error and exit 1.  Returns the
exit status, the reported rename outcome if any, and the final filesystem. -/
def pyMain (arg : Str) (tool : ToolBeh) (fs : FS) :
    Except PyExc (Nat × Option RenameOutcome × FS) :=
  if (FS.lookup fs arg).isSome && endsWithApk arg then
    (rename_apk arg tool fs).map (fun r => (0, some r.1, r.2))
  else
    .ok (1, none, fs)

/-! Concrete tool outputs used by the witness instances. -/

/-- Tool output carrying label `My App` and version `1.0`. -/
def outMyApp : Str :=
  String.toList "application-label:" ++ [squote] ++ String.toList "My App" ++ [squote] ++
    String.toList " versionName=" ++ [squote] ++ String.toList "1.0" ++ [squote]

/-- Tool output carrying label `My` and version `1.0`. -/
def outMy : Str :=
  String.toList "application-label:" ++ [squote] ++ String.toList "My" ++ [squote] ++
    String.toList " versionName=" ++ [squote] ++ String.toList "1.0" ++ [squote]

/-- Tool output carrying label `Demo App` and version `2.3.1`. -/
def outDemo : Str :=
  String.toList "application-label:" ++ [squote] ++ String.toList "Demo App" ++ [squote] ++
    String.toList " versionName=" ++ [squote] ++ String.toList "2.3.1" ++ [squote]

/-- Tool output carrying label `App` and a version `1/0` containing a slash. -/
def outSlashVer : Str :=
  String.toList "application-label:" ++ [squote] ++ String.toList "App" ++ [squote] ++
    String.toList " versionName=" ++ [squote] ++ String.toList "1/0" ++ [squote]

/-- Tool output with no label and a version containing a space, a slash and a
backslash. -/
def outWeirdVer : Str :=
  String.toList "versionName=" ++ [squote] ++ String.toList "1 a/b" ++ [bslash, 'c'] ++ [squote]

/-- Filesystem holding one correctly named file. -/
def fsMy : FS := [(String.toList "D/My_1.0.apk", String.toList "z")]

/-- Starting filesystem for the C2 witness. -/
def fsDemo : FS := [(String.toList "D/sample.apk", String.toList "payload")]

/-- Filesystem after the first successful rename in the C2 witness. -/
def fsDemo1 : FS := [(String.toList "D/Demo_App_2.3.1.apk", String.toList "payload")]

/-! Helper lemmas about `takeWhile`, `dropWhile` and the path functions. -/

theorem takeWhile_append_all {α : Type} (p : α → Bool) (xs ys : List α)
    (h : ∀ a ∈ xs, p a = true) :
    (xs ++ ys).takeWhile p = xs ++ ys.takeWhile p := by
  induction xs with
  | nil => simp
  | cons a l ih =>
    have ha : p a = true := h a (List.mem_cons_self a l)
    simp only [List.cons_append, List.takeWhile_cons, ha, if_true]
    rw [ih (fun b hb => h b (List.mem_cons_of_mem a hb))]

theorem dropWhile_append_all {α : Type} (p : α → Bool) (xs ys : List α)
    (h : ∀ a ∈ xs, p a = true) :
    (xs ++ ys).dropWhile p = ys.dropWhile p := by
  induction xs with
  | nil => simp
  | cons a l ih =>
    have ha : p a = true := h a (List.mem_cons_self a l)
    simp only [List.cons_append, List.dropWhile_cons, ha, if_true]
    exact ih (fun b hb => h b (List.mem_cons_of_mem a hb))

theorem takeWhile_self_of_all {α : Type} (p : α → Bool) (xs : List α)
    (h : ∀ a ∈ xs, p a = true) : xs.takeWhile p = xs := by
  have := takeWhile_append_all p xs [] h
  simpa using this

theorem dropWhile_nil_of_all {α : Type} (p : α → Bool) (xs : List α)
    (h : ∀ a ∈ xs, p a = true) : xs.dropWhile p = [] := by
  have := dropWhile_append_all p xs [] h
  simpa using this

theorem dropWhile_head_false {α : Type} (p : α → Bool) (a : α) (l : List α)
    (h : p a = false) : (a :: l).dropWhile p = a :: l := by
  simp [List.dropWhile_cons, h]

theorem dropWhile_ne_nil {α : Type} (p : α → Bool) (xs : List α) (a : α)
    (ha : a ∈ xs) (hpa : p a = false) : xs.dropWhile p ≠ [] := by
  induction xs with
  | nil => cases ha
  | cons b l ih =>
    by_cases hb : p b = true
    · simp only [List.dropWhile_cons, hb, if_true]
      rcases List.mem_cons.1 ha with h | h
      · subst h; rw [hb] at hpa; cases hpa
      · exact ih h
    · simp [List.dropWhile_cons, hb]

theorem dropWhile_head_shape {α : Type} (p : α → Bool) (xs : List α) :
    xs.dropWhile p = [] ∨ ∃ a ys, xs.dropWhile p = a :: ys ∧ p a = false := by
  induction xs with
  | nil => exact Or.inl rfl
  | cons b l ih =>
    by_cases hb : p b = true
    · simpa [List.dropWhile_cons, hb] using ih
    · exact Or.inr ⟨b, l, by simp [List.dropWhile_cons, hb], by simpa using hb⟩

theorem splitHead_shape (p : Str) :
    splitHead p = [] ∨ (∀ c ∈ splitHead p, c = '/') ∨
      (splitHead p ≠ [] ∧ (splitHead p).reverse.head? ≠ some '/') := by
  unfold splitHead
  by_cases hc : splitHeadRaw p ≠ [] ∧ ¬ (∀ c ∈ splitHeadRaw p, c = '/')
  · rw [if_pos hc]
    obtain ⟨hne, hnall⟩ := hc
    have hex : ∃ a ∈ splitHeadRaw p, a ≠ '/' := by push_neg at hnall; exact hnall
    obtain ⟨a, ha, hane⟩ := hex
    have hmem : a ∈ (splitHeadRaw p).reverse := List.mem_reverse.2 ha
    have hpa : (fun c => decide (c = '/')) a = false := by simpa using hane
    rcases dropWhile_head_shape (fun c => decide (c = '/')) (splitHeadRaw p).reverse with
      hnil | ⟨b, ys, hbys, hpb⟩
    · exact absurd hnil (dropWhile_ne_nil _ _ a hmem hpa)
    · refine Or.inr (Or.inr ⟨?_, ?_⟩)
      · rw [hbys]; simp
      · rw [List.reverse_reverse, hbys]
        intro hbeq
        have hb : b = '/' := by simpa using hbeq
        rw [hb] at hpb
        simp at hpb
  · rw [if_neg hc]
    by_cases hnil : splitHeadRaw p = []
    · exact Or.inl hnil
    · refine Or.inr (Or.inl ?_)
      have : ¬¬(∀ c ∈ splitHeadRaw p, c = '/') := fun hn => hc ⟨hnil, hn⟩
      exact not_not.1 this

theorem splitPath_joinPath (d fn : Str)
    (hshape : d = [] ∨ (∀ c ∈ d, c = '/') ∨ (d ≠ [] ∧ d.reverse.head? ≠ some '/'))
    (hfn : fn ≠ []) (hnos : ∀ c ∈ fn, c ≠ '/') :
    splitPath (joinPath d fn) = (d, fn) := by
  have hfnb : ∀ c ∈ fn.reverse, (c != '/') = true := by
    intro c hc
    simpa using hnos c (List.mem_reverse.1 hc)
  have hfnhead : ¬ fn.head? = some '/' := by
    cases fn with
    | nil => simp
    | cons a l =>
      intro h
      have ha : a = '/' := by simpa using h
      exact hnos a (List.mem_cons_self a l) ha
  by_cases hdnil : d = []
  · subst hdnil
    have hj : joinPath [] fn = fn := by
      unfold joinPath
      rw [if_neg hfnhead]
      simp
    rw [hj]
    have htail : splitTail fn = fn := by
      unfold splitTail
      rw [takeWhile_self_of_all _ _ hfnb, List.reverse_reverse]
    have hraw : splitHeadRaw fn = [] := by
      unfold splitHeadRaw
      rw [dropWhile_nil_of_all _ _ hfnb]
      rfl
    have hhead : splitHead fn = [] := by
      unfold splitHead
      rw [hraw]
      simp
    unfold splitPath
    rw [hhead, htail]
  · rcases hshape with hd | hall | ⟨_, hlast⟩
    · exact absurd hd hdnil
    · obtain ⟨c, rest, hrev⟩ : ∃ c rest, d.reverse = c :: rest := by
        cases hr : d.reverse with
        | nil => exact absurd (List.reverse_eq_nil_iff.1 hr) hdnil
        | cons c rest => exact ⟨c, rest, rfl⟩
      have hc : c = '/' := hall c (List.mem_reverse.1 (hrev ▸ List.mem_cons_self c rest))
      have hj : joinPath d fn = d ++ fn := by
        unfold joinPath
        rw [if_neg hfnhead, if_pos (Or.inr (by rw [hrev, hc]; rfl))]
      rw [hj]
      have hrevapp : (d ++ fn).reverse = fn.reverse ++ d.reverse := List.reverse_append d fn
      have htail : splitTail (d ++ fn) = fn := by
        unfold splitTail
        rw [hrevapp, takeWhile_append_all _ _ _ hfnb, hrev, hc]
        simp [List.takeWhile_cons]
      have hraw : splitHeadRaw (d ++ fn) = d := by
        unfold splitHeadRaw
        rw [hrevapp, dropWhile_append_all _ _ _ hfnb, hrev, hc]
        rw [dropWhile_head_false _ _ _ (by simp)]
        rw [← hc, ← hrev, List.reverse_reverse]
      have hhead : splitHead (d ++ fn) = d := by
        unfold splitHead
        rw [hraw]
        rw [if_neg (by intro hcond; exact hcond.2 hall)]
      unfold splitPath
      rw [hhead, htail]
    · obtain ⟨c, rest, hrev⟩ : ∃ c rest, d.reverse = c :: rest := by
        cases hr : d.reverse with
        | nil => exact absurd (List.reverse_eq_nil_iff.1 hr) hdnil
        | cons c rest => exact ⟨c, rest, rfl⟩
      have hcne : c ≠ '/' := by
        intro hcc
        apply hlast
        rw [hrev, hcc]
        rfl
      have hcmem : c ∈ d := List.mem_reverse.1 (hrev ▸ List.mem_cons_self c rest)
      have hj : joinPath d fn = d ++ '/' :: fn := by
        unfold joinPath
        rw [if_neg hfnhead, if_neg ?_]
        intro h
        rcases h with h | h
        · exact hdnil h
        · rw [hrev] at h
          exact hcne (by simpa using h)
      rw [hj]
      have hqrev : (d ++ '/' :: fn).reverse = fn.reverse ++ '/' :: d.reverse := by
        rw [List.reverse_append]
        simp [List.append_assoc]
      have htail : splitTail (d ++ '/' :: fn) = fn := by
        unfold splitTail
        rw [hqrev, takeWhile_append_all _ _ _ hfnb]
        simp [List.takeWhile_cons]
      have hraw : splitHeadRaw (d ++ '/' :: fn) = d ++ ['/'] := by
        unfold splitHeadRaw
        rw [hqrev, dropWhile_append_all _ _ _ hfnb, dropWhile_head_false _ _ _ (by simp)]
        simp
      have hhead : splitHead (d ++ '/' :: fn) = d := by
        unfold splitHead
        rw [hraw]
        have hcond : (d ++ ['/'] ≠ [] ∧ ¬ (∀ x ∈ d ++ ['/'], x = '/')) := by
          constructor
          · simp
          · intro hforall
            exact hcne (hforall c (List.mem_append_left _ hcmem))
        rw [if_pos hcond, List.reverse_append]
        simp only [List.reverse_cons, List.reverse_nil, List.nil_append, List.singleton_append]
        rw [List.dropWhile_cons]
        simp only [decide_True, if_true]
        rw [hrev, dropWhile_head_false _ _ _ (by simpa using hcne)]
        rw [← hrev, List.reverse_reverse]
      unfold splitPath
      rw [hhead, htail]

theorem FS.lookup_erase_self (fs : FS) (k : Str) :
    FS.lookup (FS.erase fs k) k = none := by
  induction fs with
  | nil => rfl
  | cons e rest ih =>
    by_cases he : e.1 = k
    · simpa [FS.erase, List.filter_cons, he] using ih
    · simpa [FS.erase, List.filter_cons, he, FS.lookup] using ih

theorem sanitizeLabel_eq_map (L : Str) :
    sanitizeLabel L =
      L.map (fun c => if c = ' ' ∨ c = '/' ∨ c = bslash then '_' else c) := by
  unfold sanitizeLabel pyReplaceChar
  simp only [List.map_map]
  congr 1
  funext c
  by_cases h1 : c = ' '
  · subst h1; simp [Function.comp]
  · by_cases h2 : c = '/'
    · subst h2; simp [Function.comp]
    · by_cases h3 : c = bslash
      · subst h3; simp only [Function.comp]; decide
      · simp [Function.comp, h1, h2, h3]

theorem sanitizeLabel_no_slash (s : Str) : ∀ c ∈ sanitizeLabel s, c ≠ '/' := by
  intro c hc
  rw [sanitizeLabel_eq_map] at hc
  obtain ⟨b, _, hb⟩ := List.mem_map.1 hc
  by_cases hcond : b = ' ' ∨ b = '/' ∨ b = bslash
  · rw [if_pos hcond] at hb
    rw [← hb]
    decide
  · rw [if_neg hcond] at hb
    rw [← hb]
    intro hbs
    exact hcond (Or.inr (Or.inl hbs))

theorem appOf_no_slash (out : Str) : ∀ c ∈ appOf out, c ≠ '/' := by
  unfold appOf
  cases reSearch labelLit out with
  | none => intro c hc; revert c; decide
  | some g => exact sanitizeLabel_no_slash g

theorem new_filename_no_slash (app ver : Str)
    (ha : ∀ c ∈ app, c ≠ '/') (hv : ∀ c ∈ ver, c ≠ '/') :
    ∀ c ∈ new_filename app ver, c ≠ '/' := by
  intro c hc
  unfold new_filename at hc
  rcases List.mem_append.1 hc with h | h
  · rcases List.mem_append.1 h with h2 | h2
    · exact ha c h2
    · rcases List.mem_cons.1 h2 with h3 | h3
      · subst h3; decide
      · exact hv c h3
  · have hall : ∀ x ∈ String.toList ".apk", x ≠ '/' := by decide
    exact hall c h

theorem new_filename_ne_nil (app ver : Str) : new_filename app ver ≠ [] := by
  unfold new_filename
  cases app <;> simp

theorem rename_stage_total (p a v : Str) (fs : FS) :
    ∃ r, rename_stage p a v fs = .ok r := by
  unfold rename_stage
  cases hb : renameTryBody p a v fs with
  | ok r => exact ⟨r, rfl⟩
  | error e =>
    by_cases ho : e.isOSError = true
    · refine ⟨(.failed (failedRenameMsg (excStr e)), fs), ?_⟩
      simp [ho]
    · refine ⟨(.failed (unexpectedRenameMsg (excStr e)), fs), ?_⟩
      simp [ho]

theorem rename_apk_total (p : Str) (tool : ToolBeh) (fs : FS) :
    ∃ r, rename_apk p tool fs = .ok r := by
  cases tool with
  | raise e => cases e <;> exact ⟨_, rfl⟩
  | ret out => exact rename_stage_total p (appOf out) (verOf out) fs

/-- C1: for every source path whose tool output yields raw application label
`L` and raw version `V`, extraction returns the sanitised label (every space,
`/` and backslash replaced by `_`) together with `V` verbatim, and the rename
target is the source directory joined with the filename `L_V.apk` built from
the sanitised label, with the fixed lowercase `.apk` extension and no
dependence on the source filename or its original extension. -/
theorem rename_target_formula (p out L V : Str)
    (hL : reSearch labelLit out = some L) (hV : reSearch versionLit out = some V) :
    get_apk_info p (.ret out) = .ok (sanitizeLabel L, V) ∧
    sanitizeLabel L =
      L.map (fun c => if c = ' ' ∨ c = '/' ∨ c = bslash then '_' else c) ∧
    new_filepath p (sanitizeLabel L) V =
      joinPath (splitPath p).1 (sanitizeLabel L ++ '_' :: V ++ String.toList ".apk") := by
  refine ⟨?_, sanitizeLabel_eq_map L, rfl⟩
  simp [get_apk_info, appOf, verOf, hL, hV]

/-- C1 witness: the label `My App` with version `1.0` yields the filename
`My_App_1.0.apk`. -/
theorem rename_target_formula_instance :
    get_apk_info [] (.ret outMyApp) =
      .ok (sanitizeLabel (String.toList "My App"), String.toList "1.0") ∧
    new_filename (sanitizeLabel (String.toList "My App")) (String.toList "1.0") =
      String.toList "My_App_1.0.apk" :=
  ⟨(rename_target_formula [] outMyApp (String.toList "My App") (String.toList "1.0")
      (by decide) (by decide)).1, by decide⟩

/-- C3: when the normalised source path equals the normalised computed target
path, `rename_apk` reports `AlreadyCorrect` with the current filename and
leaves the filesystem completely unchanged. -/
theorem already_correct_no_change (p out : Str) (fs : FS)
    (h : normpath p = normpath (new_filepath p (appOf out) (verOf out))) :
    rename_apk p (.ret out) fs = .ok (.alreadyCorrect (splitPath p).2, fs) := by
  show rename_stage p (appOf out) (verOf out) fs = _
  unfold rename_stage renameTryBody
  rw [if_pos h]

/-- C3 witness: a file already named `My_1.0.apk` for label `My`, version
`1.0` is reported `AlreadyCorrect` and the filesystem is untouched. -/
theorem already_correct_instance :
    rename_apk (String.toList "D/My_1.0.apk") (.ret outMy) fsMy =
      .ok (.alreadyCorrect (splitPath (String.toList "D/My_1.0.apk")).2, fsMy) :=
  already_correct_no_change (String.toList "D/My_1.0.apk") outMy fsMy (by decide)

/-- C4: whenever the tool raises (missing executable, non-zero exit, or any
other extraction error), `rename_apk` reports a `Failed` outcome and the
filesystem is returned unchanged. -/
theorem extraction_failure_no_change (p : Str) (e : PyExc) (fs : FS) :
    ∃ r, rename_apk p (.raise e) fs = .ok (.failed r, fs) := by
  cases e <;> exact ⟨_, rfl⟩

/-- C5: when the label pattern is absent from the tool output, extraction
still succeeds with label `UnknownApp`; when the version pattern is absent it
still succeeds with version `UnknownVersion`. -/
theorem missing_fields_defaults (p out : Str) :
    (reSearch labelLit out = none →
      ∃ v, get_apk_info p (.ret out) = .ok (String.toList "UnknownApp", v)) ∧
    (reSearch versionLit out = none →
      ∃ a, get_apk_info p (.ret out) = .ok (a, String.toList "UnknownVersion")) := by
  constructor
  · intro h
    exact ⟨verOf out, by simp [get_apk_info, appOf, h]⟩
  · intro h
    exact ⟨appOf out, by simp [get_apk_info, verOf, h]⟩

/-- C5 witness: on empty tool output both placeholders are produced and
extraction succeeds. -/
theorem missing_fields_defaults_instance :
    reSearch labelLit [] = none ∧
    (∃ v, get_apk_info [] (.ret []) = .ok (String.toList "UnknownApp", v)) ∧
    reSearch versionLit [] = none ∧
    (∃ a, get_apk_info [] (.ret []) = .ok (a, String.toList "UnknownVersion")) :=
  ⟨by decide, (missing_fields_defaults [] []).1 (by decide), by decide,
    (missing_fields_defaults [] []).2 (by decide)⟩

/-- C8: when the tool exits non-zero, the reported failure reason is the
`aapt` error message, which ends with the captured standard error text. -/
theorem tool_failure_reason_contains_stderr (p st : Str) (code : Int) (fs : FS) :
    rename_apk p (.raise (.calledProcessError code st)) fs =
      .ok (.failed (errAaptMsg (splitPath p).2 st), fs) ∧
    ∃ pre, errAaptMsg (splitPath p).2 st = pre ++ st :=
  ⟨rfl, ⟨_, rfl⟩⟩

/-- C9: for every input path, tool behaviour and filesystem, `rename_apk`
returns a structured outcome through the handled channel; no exception
escapes. -/
theorem no_uncaught_exception (p : Str) (tool : ToolBeh) (fs : FS) :
    ∃ out fs2, rename_apk p tool fs = .ok (out, fs2) := by
  obtain ⟨r, hr⟩ := rename_apk_total p tool fs
  exact ⟨r.1, r.2, by rw [hr]⟩

/-- C10: a matched version string is returned verbatim by extraction and
inserted verbatim into the computed filename; only the label is sanitised. -/
theorem version_inserted_verbatim (p out V : Str)
    (hV : reSearch versionLit out = some V) :
    get_apk_info p (.ret out) = .ok (appOf out, V) ∧
    new_filename (appOf out) V = appOf out ++ '_' :: V ++ String.toList ".apk" := by
  refine ⟨?_, rfl⟩
  simp [get_apk_info, verOf, hV]

/-- C10 witness: a version containing a space, `/` and a backslash appears
unchanged in the extraction result. -/
theorem version_inserted_verbatim_instance :
    get_apk_info [] (.ret outWeirdVer) =
      .ok (appOf outWeirdVer, String.toList "1 a/b" ++ [bslash, 'c']) ∧
    new_filename (appOf outWeirdVer) (String.toList "1 a/b" ++ [bslash, 'c']) =
      appOf outWeirdVer ++ '_' :: (String.toList "1 a/b" ++ [bslash, 'c']) ++
        String.toList ".apk" :=
  version_inserted_verbatim [] outWeirdVer (String.toList "1 a/b" ++ [bslash, 'c'])
    (by decide)

/-- C2 counterexample: a version string containing a slash defeats
idempotence.  The first call successfully renames `d/x.apk` to
`d/App_1/0.apk`; the second call on that produced path, with identical
metadata extracted, performs a further rename instead of reporting
`AlreadyCorrect`, because the slash shifts the directory split. -/
theorem rename_not_idempotent_slash_version :
    rename_apk (String.toList "d/x.apk") (.ret outSlashVer)
        [(String.toList "d/x.apk", String.toList "c")] =
      .ok (.renamed (String.toList "x.apk") (String.toList "App_1/0.apk"),
        [(String.toList "d/App_1/0.apk", String.toList "c")]) ∧
    rename_apk (String.toList "d/App_1/0.apk") (.ret outSlashVer)
        [(String.toList "d/App_1/0.apk", String.toList "c")] =
      .ok (.renamed (String.toList "0.apk") (String.toList "App_1/0.apk"),
        [(String.toList "d/App_1/App_1/0.apk", String.toList "c")]) :=
  ⟨rfl, rfl⟩

/-- C2 (amended): if a first call successfully renames the file and the
extracted version contains no slash (the label is always sanitised), then a
second call on the produced path with identical re-extracted metadata
reports `AlreadyCorrect` and leaves the filesystem unchanged. -/
theorem rename_idempotent_of_no_slash_version
    (p out out2 oldn newn : Str) (fs fs1 : FS)
    (_h1 : rename_apk p (.ret out) fs = .ok (.renamed oldn newn, fs1))
    (hm : appOf out2 = appOf out) (hm2 : verOf out2 = verOf out)
    (hv : ∀ c ∈ verOf out, c ≠ '/') :
    rename_apk (new_filepath p (appOf out) (verOf out)) (.ret out2) fs1 =
      .ok (.alreadyCorrect (new_filename (appOf out) (verOf out)), fs1) := by
  have hfn : ∀ c ∈ new_filename (appOf out) (verOf out), c ≠ '/' :=
    new_filename_no_slash _ _ (appOf_no_slash out) hv
  have hsp : splitPath (new_filepath p (appOf out) (verOf out)) =
      ((splitPath p).1, new_filename (appOf out) (verOf out)) :=
    splitPath_joinPath _ _ (splitHead_shape p) (new_filename_ne_nil _ _) hfn
  show rename_stage (new_filepath p (appOf out) (verOf out)) (appOf out2) (verOf out2) fs1 = _
  rw [hm, hm2]
  unfold rename_stage renameTryBody
  have hp2 : new_filepath (new_filepath p (appOf out) (verOf out)) (appOf out) (verOf out) =
      new_filepath p (appOf out) (verOf out) := by
    show joinPath (splitPath (new_filepath p (appOf out) (verOf out))).1
        (new_filename (appOf out) (verOf out)) = _
    rw [hsp]
    rfl
  rw [hp2, if_pos rfl]
  have h2 : (splitPath (new_filepath p (appOf out) (verOf out))).2 =
      new_filename (appOf out) (verOf out) := by rw [hsp]
  rw [h2]

/-- C2 witness: `D/sample.apk` with label `Demo App` and version `2.3.1` is
renamed to `D/Demo_App_2.3.1.apk`, and a second call on that path with the
same tool output reports `AlreadyCorrect`. -/
theorem rename_idempotent_instance :
    rename_apk (new_filepath (String.toList "D/sample.apk") (appOf outDemo) (verOf outDemo))
        (.ret outDemo) fsDemo1 =
      .ok (.alreadyCorrect (new_filename (appOf outDemo) (verOf outDemo)), fsDemo1) :=
  rename_idempotent_of_no_slash_version (String.toList "D/sample.apk") outDemo outDemo
    (String.toList "sample.apk") (String.toList "Demo_App_2.3.1.apk") fsDemo fsDemo1
    rfl rfl rfl (by decide)

/-- C6: if the source file exists with content `c`, then after any run of
`rename_apk` the content is never lost: either the filesystem is unchanged
and the file keeps its original name, or the content sits under exactly the
new name while the old name is gone — never both except in the no-op case. -/
theorem content_preserved (p : Str) (tool : ToolBeh) (fs : FS) (c : Str)
    (h : FS.lookup fs p = some c) :
    ∃ out fs2, rename_apk p tool fs = .ok (out, fs2) ∧
      ((fs2 = fs ∧ FS.lookup fs2 p = some c) ∨
       (∃ np, np ≠ p ∧ FS.lookup fs2 np = some c ∧ FS.lookup fs2 p = none)) := by
  cases tool with
  | raise e =>
    cases e <;> exact ⟨_, fs, rfl, Or.inl ⟨rfl, h⟩⟩
  | ret out =>
    by_cases hn : normpath p = normpath (new_filepath p (appOf out) (verOf out))
    · refine ⟨.alreadyCorrect (splitPath p).2, fs, ?_, Or.inl ⟨rfl, h⟩⟩
      show rename_stage p (appOf out) (verOf out) fs = _
      unfold rename_stage renameTryBody
      rw [if_pos hn]
    · have hne : new_filepath p (appOf out) (verOf out) ≠ p := fun heq => hn (by rw [heq])
      refine ⟨.renamed (splitPath p).2 (new_filename (appOf out) (verOf out)),
        (new_filepath p (appOf out) (verOf out), c) :: FS.erase fs p, ?_, Or.inr ?_⟩
      · show rename_stage p (appOf out) (verOf out) fs = _
        unfold rename_stage renameTryBody
        rw [if_neg hn]
        unfold osRename
        rw [h]
      · refine ⟨new_filepath p (appOf out) (verOf out), hne, ?_, ?_⟩
        · simp [FS.lookup]
        · simp [FS.lookup, hne, FS.lookup_erase_self fs p]

/-- C6 witness: applied to a concrete existing file that gets renamed. -/
theorem content_preserved_instance :
    ∃ out fs2,
      rename_apk (String.toList "a.apk") (.ret outMy)
          [(String.toList "a.apk", String.toList "x")] = .ok (out, fs2) ∧
      ((fs2 = [(String.toList "a.apk", String.toList "x")] ∧
        FS.lookup fs2 (String.toList "a.apk") = some (String.toList "x")) ∨
       (∃ np, np ≠ String.toList "a.apk" ∧
        FS.lookup fs2 np = some (String.toList "x") ∧
        FS.lookup fs2 (String.toList "a.apk") = none)) :=
  content_preserved (String.toList "a.apk") (.ret outMy)
    [(String.toList "a.apk", String.toList "x")] (String.toList "x") (by decide)

/-- C7: with a single command-line argument, when the path exists and ends
case-insensitively in `.apk` the process runs the rename and exits with
status 0 whatever the rename outcome was; otherwise it reports an error and
exits with status 1, leaving the filesystem unchanged. -/
theorem cli_exit_codes (arg : Str) (tool : ToolBeh) (fs : FS) :
    (((FS.lookup fs arg).isSome && endsWithApk arg) = true →
      ∃ out fs2, pyMain arg tool fs = .ok (0, some out, fs2)) ∧
    (((FS.lookup fs arg).isSome && endsWithApk arg) = false →
      pyMain arg tool fs = .ok (1, none, fs)) := by
  obtain ⟨r, hr⟩ := rename_apk_total arg tool fs
  constructor
  · intro h
    exact ⟨r.1, r.2, by simp [pyMain, h, hr, Except.map]⟩
  · intro h
    simp [pyMain, h]

/-- C7 witness: an existing file with uppercase extension `.APK` is accepted
and the process exits with status 0. -/
theorem cli_exit_codes_instance :
    ((FS.lookup [(String.toList "b.APK", String.toList "x")] (String.toList "b.APK")).isSome &&
      endsWithApk (String.toList "b.APK")) = true ∧
    ∃ out fs2, pyMain (String.toList "b.APK") (.ret outMy)
        [(String.toList "b.APK", String.toList "x")] = .ok (0, some out, fs2) :=
  ⟨by decide, (cli_exit_codes (String.toList "b.APK") (.ret outMy)
      [(String.toList "b.APK", String.toList "x")]).1 (by decide)⟩
